import Mathlib

/-!
# Galley Kubernetes source (`galley/pkg/kube/client/source/source.go`)

A shallow embedding of the `source` adapter: the translation of change
notifications into provider events (`process`), the lifecycle of the output
channel (`New`, `Start`, `Stop`) and the synchronous point read (`Get`).

Go values are modelled as follows.

* Go strings are Lean strings; `resource.Kind` and `resource.Version` are
  string types.
* `change.Type` and `provider.EventKind` are integer types whose named
  constants are declared in packages that are not part of the sources at
  hand; the constants are carried by the parameter `Decls`.
* A buffered channel is a heap cell holding its capacity and the queue of
  buffered values; a channel variable is `none` (Go `nil`) or a reference to
  a cell. A send on a full channel parks the sender until a receive, a send
  on a nil channel blocks forever.
* The Kubernetes client, `convert.ToProto` and the subscription handle
  `client.Accessor` are collaborators outside the sources at hand: the first
  two are the parameter `Store` of `Get`, the last is `Accessor`.
-/

namespace Galley

/-! ## Data model -/

namespace resource

/-- Go `resource.Key`. -/
structure Key where
  Kind : String
  FullName : String
  deriving DecidableEq, Repr

/-- Go `resource.VersionedKey`. -/
structure VersionedKey where
  Key : resource.Key
  Version : String
  deriving DecidableEq, Repr

/-- Go `resource.Entry`; `Item` is an interface value, `none` when nil. -/
structure Entry (Item : Type) where
  ID : VersionedKey
  Item : Option Item
  deriving DecidableEq, Repr

/-- The zero value `resource.Entry{}`. -/
def Entry.zero (Item : Type) : Entry Item :=
  { ID := { Key := { Kind := "", FullName := "" }, Version := "" }, Item := none }

end resource

namespace provider

/-- Go `provider.Event`; `Kind` is a `provider.EventKind`. -/
structure Event where
  ID : resource.VersionedKey
  Kind : Int
  deriving DecidableEq, Repr

end provider

namespace change

/-- Go `change.Info`, the notification handed to `process`; `Typ` is the Go
field `Type`. -/
structure Info where
  Typ : Int
  Name : String
  Version : String
  deriving DecidableEq, Repr

end change

/-- Declarations used by `source.go` whose packages are not among the sources:
the constants `change.Add`, `change.Update`, `change.Delete`, `change.FullSync`
of `change.Type`; the constants `provider.Added`, `provider.Updated`,
`provider.Deleted`, `provider.FullSync` (here `FullSynced`) of
`provider.EventKind`; the kind name `types.ProducerService.Kind` (here
`ProducerServiceName`); and the constant `resource.ProducerServiceKind`. -/
structure Decls where
  Add : Int
  Update : Int
  Delete : Int
  FullSync : Int
  Added : Int
  Updated : Int
  Deleted : Int
  FullSynced : Int
  ProducerServiceName : String
  ProducerServiceKind : String
  deriving DecidableEq, Repr

/-- The four `change.Type` constants are pairwise different (the Go compiler
rejects a switch with duplicate constant cases). -/
def Decls.Distinct (D : Decls) : Prop :=
  D.Add ≠ D.Update ∧ D.Add ≠ D.Delete ∧ D.Add ≠ D.FullSync ∧
  D.Update ≠ D.Delete ∧ D.Update ≠ D.FullSync ∧ D.Delete ≠ D.FullSync

instance (D : Decls) : Decidable D.Distinct := by
  unfold Decls.Distinct; infer_instance

/-- A notification type is known when it is one of the four named constants. -/
def Decls.Known (D : Decls) (t : Int) : Prop :=
  t = D.Add ∨ t = D.Update ∨ t = D.Delete ∨ t = D.FullSync

instance (D : Decls) (t : Int) : Decidable (D.Known t) := by
  unfold Decls.Known; infer_instance

/-- A sample instance of the declarations, numbered in declaration order with
zero reserved as the unset event kind. -/
def sampleDecls : Decls :=
  { Add := 0, Update := 1, Delete := 2, FullSync := 3,
    Added := 1, Updated := 2, Deleted := 3, FullSynced := 4,
    ProducerServiceName := "ProducerService",
    ProducerServiceKind := "ProducerService" }

/-- Go `error` values, identified by their message. -/
abbrev Error := String

/-! ## Channels -/

/-- A buffered Go channel: capacity and buffered values, oldest first. -/
structure Chan where
  cap : Nat
  buf : List provider.Event
  deriving DecidableEq, Repr

/-- The channel cells allocated so far; references below `next` are in use. -/
structure Heap where
  cells : Nat → Chan
  next : Nat

/-- Go `make(chan provider.Event, cap)`: a fresh empty cell. -/
def Heap.make (h : Heap) (cap : Nat) : Heap × Nat :=
  ({ cells := fun i => if i = h.next then { cap := cap, buf := [] } else h.cells i,
     next := h.next + 1 }, h.next)

/-- Overwrite the buffer of cell `r`. -/
def Heap.setBuf (h : Heap) (r : Nat) (buf : List provider.Event) : Heap :=
  { h with cells := fun i => if i = r then { cap := (h.cells r).cap, buf := buf } else h.cells i }

/-- Result of executing a send statement `ch <- e`. -/
inductive SendResult where
  /-- The value was appended to the buffer and the statement completed. -/
  | sent (h : Heap)
  /-- The buffer of cell `r` is full: the sender is parked on it. -/
  | full (r : Nat)
  /-- The channel variable is nil: the sender blocks forever. -/
  | onNil

/-- Go send statement on a channel variable `ch`. -/
def Heap.send (h : Heap) (ch : Option Nat) (e : provider.Event) : SendResult :=
  match ch with
  | none => .onNil
  | some r =>
    if (h.cells r).buf.length < (h.cells r).cap then
      .sent (h.setBuf r ((h.cells r).buf ++ [e]))
    else
      .full r

/-! ## The adapter -/

/-- Modelled from the spec: the subscription handle `client.Accessor`
(`subscriptionHandle.Start()`, `subscriptionHandle.Stop()`), whose package is
not among the sources. `running` tells whether the subscription hands
notifications to its callback. -/
structure Accessor where
  running : Bool
  deriving DecidableEq, Repr

/-- Modelled from the spec: `subscriptionHandle.Start()` begins the
subscription. -/
def Accessor.Start (_a : Accessor) : Accessor := { running := true }

/-- Modelled from the spec: `subscriptionHandle.Stop()` terminates the
subscription. -/
def Accessor.Stop (_a : Accessor) : Accessor := { running := false }

/-- Go `source`: the channel variable `ch` and the accessor. -/
structure source where
  ch : Option Nat
  scAccessor : Accessor
  deriving DecidableEq, Repr

/-- Program state: the channel heap and the adapter. -/
structure State where
  heap : Heap
  s : source

/-- Go `New`: `acc` is the result of `client.NewAccessor`. -/
def New (acc : Except Error Accessor) : Except Error source :=
  match acc with
  | .error err => .error err
  | .ok scAccessor => .ok { ch := none, scAccessor := scAccessor }

/-- Result of `Start`: the new state, the returned channel and the error. -/
structure StartResult where
  state : State
  ch : Option Nat
  err : Option Error

/-- Go `(*source).Start`. -/
def source.Start (σ : State) : StartResult :=
  let (heap, r) := σ.heap.make 1024
  let s : source := { σ.s with ch := some r }
  let s : source := { s with scAccessor := s.scAccessor.Start }
  { state := { heap := heap, s := s }, ch := s.ch, err := none }

/-- Go `(*source).Stop`. -/
def source.Stop (σ : State) : State :=
  let s : source := { σ.s with scAccessor := σ.s.scAccessor.Stop }
  let s : source := { s with ch := none }
  { σ with s := s }

/-- The event built by `process` (lines 104-129): the switch on `c.Type`
leaves `kind` at its zero value in the default case. -/
def source.processEvent (D : Decls) (c : change.Info) : provider.Event :=
  let kind : Int :=
    if c.Typ = D.Add then D.Added
    else if c.Typ = D.Update then D.Updated
    else if c.Typ = D.Delete then D.Deleted
    else if c.Typ = D.FullSync then D.FullSynced
    else 0
  let rid : resource.VersionedKey :=
    { Key := { Kind := D.ProducerServiceName, FullName := c.Name },
      Version := c.Version }
  { ID := rid, Kind := kind }

/-- Outcome of one call of `process`. -/
inductive Outcome where
  /-- The call returned, leaving this state. -/
  | done (σ : State)
  /-- The call is parked in its send on the full cell `r`, holding `e`. -/
  | parked (r : Nat) (e : provider.Event)
  /-- The call is blocked forever in a send on a nil channel. -/
  | stuck (e : provider.Event)

/-- Go `(*source).process`: build the event, then `s.ch <- e`. -/
def source.process (D : Decls) (σ : State) (c : change.Info) : Outcome :=
  let e := source.processEvent D c
  match σ.heap.send σ.s.ch e with
  | .sent h => .done { σ with heap := h }
  | .full r => .parked r e
  | .onNil => .stuck e

/-- Process notifications one after another; stops at the first call that
does not return. -/
def source.processAll (D : Decls) : State → List change.Info → Outcome
  | σ, [] => .done σ
  | σ, c :: cs =>
    match source.process D σ c with
    | .done σ' => source.processAll D σ' cs
    | o => o

/-- Buffer of the channel the adapter currently refers to (empty when nil). -/
def State.chanBuf (σ : State) : List provider.Event :=
  match σ.s.ch with
  | none => []
  | some r => (σ.heap.cells r).buf

/-- An empty heap and a freshly constructed adapter. -/
def State.init : State :=
  { heap := { cells := fun _ => { cap := 0, buf := [] }, next := 0 },
    s := { ch := none, scAccessor := { running := false } } }

/-! ## Point reads -/

namespace strings

/-- Pieces of a character sequence between occurrences of `sep`. -/
def splitChars (sep : Char) : List Char → List (List Char)
  | [] => [[]]
  | c :: cs =>
    if c = sep then [] :: splitChars sep cs
    else
      match splitChars sep cs with
      | [] => [[c]]
      | p :: ps => (c :: p) :: ps

/-- Go `strings.Split(s, sep)` for a separator of one character, as in the
call `strings.Split(id.FullName, "/")`. -/
def Split (s : String) (sep : Char) : List String :=
  (splitChars sep s.data).map String.mk

end strings

/-- The collaborators of `Get`, external to the adapter: the point read
`s.scAccessor.Client.Resource(types.ProducerService.APIResource(), ns).Get(name, metav1.GetOptions{})`,
the conversion `convert.ToProto(types.ProducerService, u)` and the accessor
`u.GetResourceVersion()` of the raw object. -/
structure Store (U Item : Type) where
  read : String → String → Except Error U
  ToProto : U → Except Error Item
  GetResourceVersion : U → String

/-- A call made by `Get` to one of its collaborators. -/
inductive Call (U : Type) where
  | read (ns name : String)
  | toProto (u : U)
  deriving DecidableEq, Repr

/-- How a call of `Get` ends: an index-out-of-range panic, or a return of an
entry and an error (`none` is Go `nil`). -/
inductive GetResult (Item : Type) where
  | panicked
  | returned (entry : resource.Entry Item) (err : Option Error)
  deriving DecidableEq, Repr

/-- A run of `Get`: the state it leaves, the collaborator calls it made in
order, and how it ended. -/
structure GetRun (U Item : Type) where
  state : State
  calls : List (Call U)
  result : GetResult Item

/-- Go `(*source).Get`. -/
def source.Get {U Item : Type} (D : Decls) (st : Store U Item) (σ : State)
    (id : resource.Key) : GetRun U Item :=
  let parts := strings.Split id.FullName '/'
  match parts[0]? with
  | none => { state := σ, calls := [], result := .panicked }
  | some ns =>
    match parts[1]? with
    | none => { state := σ, calls := [], result := .panicked }
    | some name =>
      match st.read ns name with
      | .error err =>
        { state := σ, calls := [.read ns name],
          result := .returned (resource.Entry.zero Item) (some err) }
      | .ok u =>
        match st.ToProto u with
        | .error err =>
          { state := σ, calls := [.read ns name, .toProto u],
            result := .returned (resource.Entry.zero Item) (some err) }
        | .ok item =>
          let rid : resource.VersionedKey :=
            { Key := { Kind := D.ProducerServiceKind, FullName := id.FullName },
              Version := st.GetResourceVersion u }
          { state := σ, calls := [.read ns name, .toProto u],
            result := .returned { ID := rid, Item := some item } none }

/-! ## Producer, consumer and lifecycle calls interleaved -/

/-- Where the subscription callback stands. -/
inductive Producer where
  /-- No call of `process` is active. -/
  | idle
  /-- The active call of `process` has built `e` and is about to execute
  `s.ch <- e`. -/
  | atSend (e : provider.Event)
  /-- The active call is parked in its send on the full cell `r`. -/
  | parked (r : Nat) (e : provider.Event)
  /-- The active call executed its send while `s.ch` was nil. -/
  | stuck (e : provider.Event)
  deriving DecidableEq, Repr

/-- The adapter together with its environment: the callback of the
subscription, the notifications the subscription has not handed over yet (in
arrival order), the channel the consumer was given by `Start`, and the events
the consumer has received (oldest first). -/
structure Sys where
  σ : State
  prod : Producer
  queue : List change.Info
  consumer : Option Nat
  received : List provider.Event

/-- One atomic move of some party. -/
inductive Action where
  /-- The owner calls `Start` and hands the channel to the consumer. -/
  | start
  /-- The owner calls `Stop`. -/
  | stop
  /-- The subscription calls `process` on the next notification, which runs
  up to its send statement. -/
  | notify
  /-- The active call of `process` executes `s.ch <- e`. -/
  | send
  /-- The consumer receives from its channel. -/
  | recv
  deriving DecidableEq, Repr

/-- Effect of one move; a move that is not enabled leaves the system as is.
A receive takes the oldest buffered event; if a sender is parked on the
channel, its event is put at the end of the buffer and the sender goes on,
which ends the call of `process`. -/
def Sys.step (D : Decls) (y : Sys) : Action → Sys
  | .start =>
    let res := source.Start y.σ
    { y with σ := res.state, consumer := res.ch }
  | .stop => { y with σ := source.Stop y.σ }
  | .notify =>
    match y.prod, y.queue with
    | .idle, c :: cs =>
      if y.σ.s.scAccessor.running then
        { y with prod := .atSend (source.processEvent D c), queue := cs }
      else y
    | _, _ => y
  | .send =>
    match y.prod with
    | .atSend e =>
      match y.σ.heap.send y.σ.s.ch e with
      | .sent h => { y with σ := { y.σ with heap := h }, prod := .idle }
      | .full r => { y with prod := .parked r e }
      | .onNil => { y with prod := .stuck e }
    | _ => y
  | .recv =>
    match y.consumer with
    | none => y
    | some r =>
      match (y.σ.heap.cells r).buf with
      | [] => y
      | x :: xs =>
        match y.prod with
        | .parked r' e =>
          if r' = r then
            { y with σ := { y.σ with heap := y.σ.heap.setBuf r (xs ++ [e]) },
                     prod := .idle, received := y.received ++ [x] }
          else
            { y with σ := { y.σ with heap := y.σ.heap.setBuf r xs },
                     received := y.received ++ [x] }
        | _ =>
          { y with σ := { y.σ with heap := y.σ.heap.setBuf r xs },
                   received := y.received ++ [x] }

/-- Run a sequence of moves. -/
def Sys.run (D : Decls) (y : Sys) (tr : List Action) : Sys :=
  tr.foldl (Sys.step D) y

/-- The system right after `Start` was called on `σ`, with `cs` the
notifications the subscription is going to deliver. -/
def Sys.started (σ : State) (cs : List change.Info) : Sys :=
  { σ := (source.Start σ).state, prod := .idle, queue := cs,
    consumer := (source.Start σ).ch, received := [] }

/-- The schedule in which the consumer moves only when the producer cannot:
the producer fills the channel until it is parked, and each receive lets it
go on. -/
def Sys.pick (y : Sys) : Option Action :=
  let recv : Option Action :=
    match y.consumer with
    | none => none
    | some r => if (y.σ.heap.cells r).buf.isEmpty then none else some .recv
  match y.prod with
  | .atSend _ => some .send
  | .idle =>
    if !y.queue.isEmpty && y.σ.s.scAccessor.running then some .notify else recv
  | .parked _ _ => recv
  | .stuck _ => recv

/-- Follow the schedule `pick` for at most `n` moves. -/
def Sys.drain (D : Decls) : Nat → Sys → Sys
  | 0, y => y
  | n + 1, y =>
    match y.pick with
    | none => y
    | some a => Sys.drain D n (y.step D a)

/-! ## The specification's translation table -/

/-- Spec 4.1, `translate`: `Add → Added`, `Update → Updated`,
`Delete → Deleted`, `FullSync → FullSync`, the event carrying the key
`{ProducerService kind, c.Name}` at `c.Version`. Stated as a relation between
a notification and an event; no event is related to a notification of any
other type. -/
def Decls.specEvent (D : Decls) (c : change.Info) (e : provider.Event) : Prop :=
  e.ID = { Key := { Kind := D.ProducerServiceName, FullName := c.Name },
           Version := c.Version } ∧
  ((c.Typ = D.Add ∧ e.Kind = D.Added) ∨ (c.Typ = D.Update ∧ e.Kind = D.Updated) ∨
   (c.Typ = D.Delete ∧ e.Kind = D.Deleted) ∨ (c.Typ = D.FullSync ∧ e.Kind = D.FullSynced))

instance (D : Decls) (c : change.Info) (e : provider.Event) : Decidable (D.specEvent c e) := by
  unfold Decls.specEvent; infer_instance

/-! ## Sample inputs, invariant and measure -/

/-- A sample store: every name but `missing` can be read, the raw object being
a pair of resource version and payload, and every payload but `bad` converts. -/
def sampleStore : Store (String × String) String :=
  { read := fun ns name =>
      if name = "missing" then .error "NotFound" else .ok ("rv-" ++ ns, name)
    ToProto := fun u => if u.2 = "bad" then .error "ConversionFailed" else .ok u.2
    GetResourceVersion := fun u => u.1 }

/-- The system before `Start` is called: no call of `process` active, `cs`
still to be delivered, nothing received. -/
def Sys.fresh (σ : State) (cs : List change.Info) : Sys :=
  { σ := σ, prod := .idle, queue := cs, consumer := none, received := [] }

/-- The event an active call of `process` holds and has not yet put into the
channel, if any. -/
def Producer.inflight : Producer → List provider.Event
  | .idle => []
  | .atSend e => [e]
  | .parked _ e => [e]
  | .stuck e => [e]

/-- What is left to do: three moves for a notification not yet handed over,
two for an event about to be sent, one for an event parked or buffered. -/
def Sys.weight (y : Sys) : Nat :=
  3 * y.queue.length +
    (match y.prod with
     | .atSend _ => 2
     | .parked _ _ => 1
     | _ => 0) +
    y.σ.chanBuf.length

/-- Invariant of the systems reached from `Start` by deliveries and receives,
where `r` is the channel `Start` returned and `all` the events of all the
notifications: adapter and consumer both refer to `r`, the subscription runs,
the channel has capacity 1024 and holds at most that many events, a parked
call is parked on `r` with the buffer full, no send was executed on a nil
channel, and what was received, what is buffered, what the active call holds
and what is still to be delivered make up `all` in this order. -/
structure Sys.Inv (D : Decls) (r : Nat) (all : List provider.Event) (y : Sys) : Prop where
  ch : y.σ.s.ch = some r
  consumer : y.consumer = some r
  running : y.σ.s.scAccessor.running = true
  cap : (y.σ.heap.cells r).cap = 1024
  len : (y.σ.heap.cells r).buf.length ≤ 1024
  prod : match y.prod with
    | .idle => True
    | .atSend _ => True
    | .parked r' _ => r' = r ∧ (y.σ.heap.cells r).buf.length = 1024
    | .stuck _ => False
  flow : y.received ++ (y.σ.heap.cells r).buf ++ y.prod.inflight ++
      y.queue.map (source.processEvent D) = all

/-- The moves of the producer and of the consumer, as opposed to the
lifecycle calls `Start` and `Stop`. -/
def Action.isDelivery : Action → Bool
  | .notify => true
  | .send => true
  | .recv => true
  | _ => false

/-! ## Lemmas on channels and `process` -/

theorem specEvent_eq_processEvent {D : Decls} (hD : D.Distinct) {c : change.Info}
    {e : provider.Event} (h : D.specEvent c e) : source.processEvent D c = e := by
  obtain ⟨h1, h2, h3, h4, h5, h6⟩ := hD
  obtain ⟨hid, hk⟩ := h
  cases e with
  | mk ID Kind =>
    simp only at hid hk
    subst hid
    rcases hk with ⟨ht, hk⟩ | ⟨ht, hk⟩ | ⟨ht, hk⟩ | ⟨ht, hk⟩ <;>
      simp [source.processEvent, ht, hk, h1, h2, h3, h4, h5, h6, Ne.symm h1, Ne.symm h2,
        Ne.symm h3, Ne.symm h4, Ne.symm h5, Ne.symm h6]

theorem processEvent_unknown {D : Decls} {c : change.Info} (h : ¬ D.Known c.Typ) :
    source.processEvent D c =
      { ID := { Key := { Kind := D.ProducerServiceName, FullName := c.Name },
                Version := c.Version }, Kind := 0 } := by
  simp only [Decls.Known, not_or] at h
  simp [source.processEvent, h.1, h.2.1, h.2.2.1, h.2.2.2]

theorem process_room (D : Decls) (σ : State) (c : change.Info) (r : Nat)
    (hch : σ.s.ch = some r) (hroom : (σ.heap.cells r).buf.length < (σ.heap.cells r).cap) :
    source.process D σ c =
      .done { σ with heap := σ.heap.setBuf r ((σ.heap.cells r).buf ++ [source.processEvent D c]) } := by
  simp [source.process, Heap.send, hch, hroom]

theorem process_full (D : Decls) (σ : State) (c : change.Info) (r : Nat)
    (hch : σ.s.ch = some r) (hfull : ¬ (σ.heap.cells r).buf.length < (σ.heap.cells r).cap) :
    source.process D σ c = .parked r (source.processEvent D c) := by
  simp [source.process, Heap.send, hch, hfull]

theorem setBuf_cells_self (h : Heap) (r : Nat) (b : List provider.Event) :
    (h.setBuf r b).cells r = { cap := (h.cells r).cap, buf := b } := by
  simp [Heap.setBuf]

theorem setBuf_cells_other (h : Heap) (r i : Nat) (b : List provider.Event) (hi : i ≠ r) :
    (h.setBuf r b).cells i = h.cells i := by
  simp [Heap.setBuf, hi]

theorem processAll_room (D : Decls) (r : Nat) :
    ∀ (cs : List change.Info) (σ : State), σ.s.ch = some r →
      (σ.heap.cells r).buf.length + cs.length ≤ (σ.heap.cells r).cap →
      ∃ σ', source.processAll D σ cs = .done σ' ∧ σ'.s = σ.s ∧
        (σ'.heap.cells r).buf = (σ.heap.cells r).buf ++ cs.map (source.processEvent D) ∧
        (σ'.heap.cells r).cap = (σ.heap.cells r).cap ∧
        (∀ i, i ≠ r → σ'.heap.cells i = σ.heap.cells i) ∧
        σ'.heap.next = σ.heap.next := by
  intro cs
  induction cs with
  | nil => intro σ _ _; exact ⟨σ, rfl, rfl, by simp, rfl, fun _ _ => rfl, rfl⟩
  | cons c cs ih =>
    intro σ hch hlen
    simp only [List.length_cons] at hlen
    have hroom : (σ.heap.cells r).buf.length < (σ.heap.cells r).cap := by omega
    have hp := process_room D σ c r hch hroom
    obtain ⟨σ', h1, h2, h3, h4, h5, h6⟩ :=
      ih { σ with heap := σ.heap.setBuf r ((σ.heap.cells r).buf ++ [source.processEvent D c]) }
        hch (by simp [setBuf_cells_self]; omega)
    refine ⟨σ', ?_, h2, ?_, ?_, ?_, ?_⟩
    · simp only [source.processAll, hp]; exact h1
    · rw [h3]; simp [setBuf_cells_self]
    · rw [h4]; simp [setBuf_cells_self]
    · intro i hi; rw [h5 i hi]; exact setBuf_cells_other _ _ _ _ hi
    · rw [h6]; rfl

theorem map_processEvent_of_spec {D : Decls} (hD : D.Distinct) {cs : List change.Info}
    {es : List provider.Event} (h : List.Forall₂ D.specEvent cs es) :
    cs.map (source.processEvent D) = es := by
  induction h with
  | nil => rfl
  | cons hce _ ih => simp [specEvent_eq_processEvent hD hce, ih]

theorem Start_state_ch (σ : State) : (source.Start σ).state.s.ch = some σ.heap.next := rfl

theorem Start_cell (σ : State) :
    (source.Start σ).state.heap.cells σ.heap.next = { cap := 1024, buf := [] } := by
  simp [source.Start, Heap.make]

theorem Start_cells_old (σ : State) (i : Nat) (hi : i ≠ σ.heap.next) :
    (source.Start σ).state.heap.cells i = σ.heap.cells i := by
  simp [source.Start, Heap.make, hi]

/-! ## Claims on `process` -/

/-- C1: on a running adapter, a notification of type Add, Update, Delete or
FullSync makes `process` push exactly one event, the one the specification's
table relates to it (key `{ProducerService kind, c.Name}`, version
`c.Version`, kind Added, Updated, Deleted or FullSync respectively): with room
in the buffer the call returns having appended that event and changed nothing
else, and with a full buffer the call is parked holding that same event. -/
theorem process_pushes_translated_event (D : Decls) (hD : D.Distinct) (σ : State)
    (c : change.Info) (e : provider.Event) (r : Nat)
    (he : D.specEvent c e) (hch : σ.s.ch = some r) :
    ((σ.heap.cells r).buf.length < (σ.heap.cells r).cap →
      ∃ σ', source.process D σ c = .done σ' ∧ σ'.s = σ.s ∧
        (σ'.heap.cells r).buf = (σ.heap.cells r).buf ++ [e] ∧
        (σ'.heap.cells r).cap = (σ.heap.cells r).cap ∧
        (∀ i, i ≠ r → σ'.heap.cells i = σ.heap.cells i)) ∧
    (¬ (σ.heap.cells r).buf.length < (σ.heap.cells r).cap →
      source.process D σ c = .parked r e) := by
  have hpe := specEvent_eq_processEvent hD he
  constructor
  · intro hroom
    refine ⟨_, process_room D σ c r hch hroom, rfl, ?_, ?_, ?_⟩
    · simp [setBuf_cells_self, hpe]
    · simp [setBuf_cells_self]
    · intro i hi; exact setBuf_cells_other _ _ _ _ hi
  · intro hfull
    rw [process_full D σ c r hch hfull, hpe]

/-- Witness for C1: the notification `{Add, "ns1/svc-a", "v1"}` on a freshly
started adapter. -/
theorem process_pushes_translated_event_witness :
    sampleDecls.Distinct ∧
    sampleDecls.specEvent ⟨0, "ns1/svc-a", "v1"⟩
      ⟨⟨⟨"ProducerService", "ns1/svc-a"⟩, "v1"⟩, 1⟩ ∧
    (source.Start State.init).state.s.ch = some 0 ∧
    ∃ σ', source.process sampleDecls (source.Start State.init).state ⟨0, "ns1/svc-a", "v1"⟩
        = .done σ' ∧
      (σ'.heap.cells 0).buf = [⟨⟨⟨"ProducerService", "ns1/svc-a"⟩, "v1"⟩, 1⟩] := by
  refine ⟨by decide, by decide, rfl, ?_⟩
  obtain ⟨σ', h1, _, h3, _⟩ :=
    (process_pushes_translated_event sampleDecls (by decide) (source.Start State.init).state
      ⟨0, "ns1/svc-a", "v1"⟩ ⟨⟨⟨"ProducerService", "ns1/svc-a"⟩, "v1"⟩, 1⟩ 0
      (by decide) rfl).1 (by decide)
  exact ⟨σ', h1, h3⟩

/-- C2 (the code departs from the claim): a notification whose type is none of
Add, Update, Delete, FullSync is not dropped. On a running adapter with room in
the buffer `process` returns having appended an event with the notification's
name and version and the zero event kind, so the channel holds one event more
than before. -/
theorem process_unknown_type_pushes_event (D : Decls) (σ : State) (c : change.Info) (r : Nat)
    (hun : ¬ D.Known c.Typ) (hch : σ.s.ch = some r)
    (hroom : (σ.heap.cells r).buf.length < (σ.heap.cells r).cap) :
    ∃ σ', source.process D σ c = .done σ' ∧ σ'.s = σ.s ∧
      (σ'.heap.cells r).buf = (σ.heap.cells r).buf ++
        [{ ID := { Key := { Kind := D.ProducerServiceName, FullName := c.Name },
                   Version := c.Version }, Kind := 0 }] ∧
      (σ'.heap.cells r).buf ≠ (σ.heap.cells r).buf := by
  refine ⟨_, process_room D σ c r hch hroom, rfl, ?_, ?_⟩
  · simp [setBuf_cells_self, processEvent_unknown hun]
  · simp [setBuf_cells_self]

/-- Witness for C2: a notification of type 7 on a freshly started adapter. -/
theorem process_unknown_type_pushes_event_witness :
    ¬ sampleDecls.Known 7 ∧ (source.Start State.init).state.chanBuf = [] ∧
    ∃ σ', source.process sampleDecls (source.Start State.init).state ⟨7, "ns1/svc-a", "v1"⟩
        = .done σ' ∧
      (σ'.heap.cells 0).buf = [⟨⟨⟨"ProducerService", "ns1/svc-a"⟩, "v1"⟩, 0⟩] := by
  refine ⟨by decide, by decide, ?_⟩
  obtain ⟨σ', h1, _, h3, _⟩ :=
    process_unknown_type_pushes_event sampleDecls (source.Start State.init).state
      ⟨7, "ns1/svc-a", "v1"⟩ 0 (by decide) rfl (by decide)
  exact ⟨σ', h1, h3⟩

/-- C3: after `Start`, processing one after another a sequence of
notifications of known types that fits the channel (at most 1024) returns for
every one of them, and the channel then holds exactly the events the
specification's table relates to them, in the same order and the same number. -/
theorem processAll_preserves_order_and_count (D : Decls) (hD : D.Distinct) (σ : State)
    (cs : List change.Info) (es : List provider.Event)
    (hes : List.Forall₂ D.specEvent cs es) (hlen : cs.length ≤ 1024) :
    ∃ σ', source.processAll D (source.Start σ).state cs = .done σ' ∧
      σ'.s.ch = (source.Start σ).ch ∧ σ'.chanBuf = es ∧ σ'.chanBuf.length = cs.length := by
  obtain ⟨σ', h1, h2, h3, _, _, _⟩ :=
    processAll_room D σ.heap.next cs (source.Start σ).state (Start_state_ch σ)
      (by rw [Start_cell]; simpa using hlen)
  have hbuf : σ'.chanBuf = es := by
    simp only [State.chanBuf, h2, Start_state_ch, h3, Start_cell, List.nil_append]
    exact map_processEvent_of_spec hD hes
  refine ⟨σ', h1, by rw [h2]; rfl, hbuf, ?_⟩
  rw [hbuf]; exact hes.length_eq.symm

/-- Witness for C3: an Add, an Update and a Delete of `ns1/svc-a`. -/
theorem processAll_preserves_order_and_count_witness :
    sampleDecls.Distinct ∧
    ∃ σ', source.processAll sampleDecls (source.Start State.init).state
        [⟨0, "ns1/svc-a", "v1"⟩, ⟨1, "ns1/svc-a", "v2"⟩, ⟨2, "ns1/svc-a", "v3"⟩] = .done σ' ∧
      σ'.chanBuf = [⟨⟨⟨"ProducerService", "ns1/svc-a"⟩, "v1"⟩, 1⟩,
                    ⟨⟨⟨"ProducerService", "ns1/svc-a"⟩, "v2"⟩, 2⟩,
                    ⟨⟨⟨"ProducerService", "ns1/svc-a"⟩, "v3"⟩, 3⟩] := by
  refine ⟨by decide, ?_⟩
  obtain ⟨σ', h1, _, h3, _⟩ :=
    processAll_preserves_order_and_count sampleDecls (by decide) State.init
      [⟨0, "ns1/svc-a", "v1"⟩, ⟨1, "ns1/svc-a", "v2"⟩, ⟨2, "ns1/svc-a", "v3"⟩]
      [⟨⟨⟨"ProducerService", "ns1/svc-a"⟩, "v1"⟩, 1⟩,
       ⟨⟨⟨"ProducerService", "ns1/svc-a"⟩, "v2"⟩, 2⟩,
       ⟨⟨⟨"ProducerService", "ns1/svc-a"⟩, "v3"⟩, 3⟩]
      (List.Forall₂.cons (by decide) (List.Forall₂.cons (by decide)
        (List.Forall₂.cons (by decide) List.Forall₂.nil)))
      (by decide)
  exact ⟨σ', h1, h3⟩

/-! ## Claims on `Start` -/

/-- C6: `Start` never returns an error, so the only-if and the whenever
clauses on an error return hold with no case to check; it returns a channel
that was not allocated before, is empty and has capacity 1024, leaves the
cells allocated earlier as they were, stores that same channel in the adapter,
and the next notification processed is delivered into it. A freshly
constructed adapter (`New`) has no output channel. -/
theorem Start_returns_fresh_channel (σ : State) :
    (source.Start σ).err = none ∧
    ((source.Start σ).err ≠ none →
      (source.Start σ).ch = none ∧ (source.Start σ).state.s.ch = none) ∧
    (∃ r, (source.Start σ).ch = some r ∧ σ.heap.next ≤ r ∧
      r < (source.Start σ).state.heap.next ∧
      (source.Start σ).state.heap.cells r = { cap := 1024, buf := [] } ∧
      (∀ i, i < σ.heap.next → (source.Start σ).state.heap.cells i = σ.heap.cells i) ∧
      (source.Start σ).state.s.ch = some r ∧
      (source.Start σ).state.s.scAccessor.running = true ∧
      ∀ (D : Decls) (c : change.Info),
        ∃ σ', source.process D (source.Start σ).state c = .done σ' ∧
          σ'.s.ch = some r ∧ (σ'.heap.cells r).buf = [source.processEvent D c]) ∧
    (∀ a : Accessor, New (.ok a) = .ok { ch := none, scAccessor := a }) ∧
    (∀ err : Error, New (.error err) = .error err) := by
  refine ⟨rfl, fun h => absurd rfl h, ⟨σ.heap.next, rfl, le_refl _, ?_, Start_cell σ, ?_, rfl,
    rfl, ?_⟩, fun _ => rfl, fun _ => rfl⟩
  · simp [source.Start, Heap.make]
  · intro i hi; exact Start_cells_old σ i (by omega)
  · intro D c
    refine ⟨_, process_room D (source.Start σ).state c σ.heap.next (Start_state_ch σ)
      (by rw [Start_cell]; decide), rfl, ?_⟩
    simp [setBuf_cells_self, Start_cell]

/-! ## Lemmas on `strings.Split` -/

namespace strings

theorem splitChars_ne_nil (sep : Char) (l : List Char) : splitChars sep l ≠ [] := by
  induction l with
  | nil => simp [splitChars]
  | cons c cs ih =>
    simp only [splitChars]
    split
    · simp
    · split <;> simp

theorem splitChars_of_not_mem (sep : Char) (l : List Char) (h : sep ∉ l) :
    splitChars sep l = [l] := by
  induction l with
  | nil => rfl
  | cons c cs ih =>
    simp only [List.mem_cons, not_or] at h
    have hc : ¬ c = sep := fun hc => h.1 hc.symm
    simp [splitChars, hc, ih h.2]

theorem splitChars_append (sep : Char) (a b : List Char) (h : sep ∉ a) :
    splitChars sep (a ++ sep :: b) = a :: splitChars sep b := by
  induction a with
  | nil => simp [splitChars]
  | cons c cs ih =>
    simp only [List.mem_cons, not_or] at h
    have hc : ¬ c = sep := fun hc => h.1 hc.symm
    simp [splitChars, hc, ih h.2]

theorem splitChars_mem_not_mem (sep : Char) (l : List Char) :
    ∀ p ∈ splitChars sep l, sep ∉ p := by
  induction l with
  | nil => simp [splitChars]
  | cons c cs ih =>
    intro p hp
    simp only [splitChars] at hp
    split at hp
    · rcases List.mem_cons.1 hp with rfl | hp
      · simp
      · exact ih p hp
    · rename_i hc
      split at hp
      · rename_i heq; exact absurd heq (splitChars_ne_nil sep cs)
      · rename_i q qs heq
        have hq : ∀ x ∈ q :: qs, sep ∉ x := by rw [← heq]; exact ih
        rcases List.mem_cons.1 hp with rfl | hp
        · intro hmem
          rcases List.mem_cons.1 hmem with h1 | h1
          · exact hc h1.symm
          · exact hq q (List.mem_cons_self _ _) h1
        · exact hq p (List.mem_cons_of_mem _ hp)

theorem Split_two (ns name : String) (hns : '/' ∉ ns.data) (hname : '/' ∉ name.data) :
    Split (ns ++ "/" ++ name) '/' = [ns, name] := by
  have hd : (ns ++ "/" ++ name).data = ns.data ++ '/' :: name.data := by
    simp [String.data_append]
  simp [Split, hd, splitChars_append _ _ _ hns, splitChars_of_not_mem _ _ hname]

theorem splitChars_single (sep : Char) :
    ∀ (l b : List Char), splitChars sep l = [b] → l = b := by
  intro l
  induction l with
  | nil => intro b h; simpa [splitChars] using h
  | cons c cs ih =>
    intro b h
    simp only [splitChars] at h
    split at h
    · simp only [List.cons.injEq] at h
      exact absurd h.2 (splitChars_ne_nil sep cs)
    · split at h
      · rename_i heq; exact absurd heq (splitChars_ne_nil sep cs)
      · rename_i q qs heq
        simp only [List.cons.injEq] at h
        obtain ⟨h1, h2⟩ := h
        subst h1 h2
        rw [ih q heq]

theorem splitChars_pair (sep : Char) :
    ∀ (l a b : List Char), splitChars sep l = [a, b] → l = a ++ sep :: b := by
  intro l
  induction l with
  | nil => intro a b h; simp [splitChars] at h
  | cons c cs ih =>
    intro a b h
    simp only [splitChars] at h
    split at h
    · rename_i hc
      simp only [List.cons.injEq] at h
      obtain ⟨h1, h2⟩ := h
      subst h1
      rw [splitChars_single sep cs b h2, hc]
      rfl
    · split at h
      · rename_i heq; exact absurd heq (splitChars_ne_nil sep cs)
      · rename_i q qs heq
        simp only [List.cons.injEq] at h
        obtain ⟨h1, h2⟩ := h
        subst h1 h2
        rw [ih q b heq]
        rfl

/-- A name splits into exactly the two segments `ns` and `name` if and only if
it is `ns`, one `/`, and `name`, with no `/` inside `ns` or `name`. -/
theorem Split_eq_pair_iff (s ns name : String) :
    Split s '/' = [ns, name] ↔
      s = ns ++ "/" ++ name ∧ '/' ∉ ns.data ∧ '/' ∉ name.data := by
  constructor
  · intro h
    have hns : '/' ∉ ns.data := by
      have hm : ns ∈ Split s '/' := by rw [h]; simp
      simp only [Split, List.mem_map] at hm
      obtain ⟨q, hq, rfl⟩ := hm
      exact splitChars_mem_not_mem '/' s.data q hq
    have hname : '/' ∉ name.data := by
      have hm : name ∈ Split s '/' := by rw [h]; simp
      simp only [Split, List.mem_map] at hm
      obtain ⟨q, hq, rfl⟩ := hm
      exact splitChars_mem_not_mem '/' s.data q hq
    refine ⟨?_, hns, hname⟩
    have hd : splitChars '/' s.data = [ns.data, name.data] := by
      have hmap : (splitChars '/' s.data).map String.mk = [ns, name] := h
      cases hl : splitChars '/' s.data with
      | nil => exact absurd hl (splitChars_ne_nil _ _)
      | cons x xs =>
        rw [hl] at hmap
        cases xs with
        | nil => simp at hmap
        | cons z zs =>
          cases zs with
          | nil =>
            simp only [List.map_cons, List.map_nil, List.cons.injEq, and_true] at hmap
            obtain ⟨h1, h2⟩ := hmap
            subst h1 h2
            rfl
          | cons w ws => simp at hmap
    have hdata := splitChars_pair '/' s.data ns.data name.data hd
    apply String.ext
    rw [hdata]
    simp [String.data_append]
  · rintro ⟨rfl, hns, hname⟩
    exact Split_two ns name hns hname

theorem Split_mem_not_mem (s p : String) (hp : p ∈ Split s '/') : '/' ∉ p.data := by
  simp only [Split, List.mem_map] at hp
  obtain ⟨q, hq, rfl⟩ := hp
  exact splitChars_mem_not_mem '/' s.data q hq

end strings

/-! ## Claims on `Get` -/

theorem Get_state {U Item : Type} (D : Decls) (st : Store U Item) (σ : State)
    (id : resource.Key) : (source.Get D st σ id).state = σ := by
  unfold source.Get
  dsimp only
  split
  · rfl
  · split
    · rfl
    · split
      · rfl
      · split <;> rfl

theorem Get_of_parts {U Item : Type} (D : Decls) (st : Store U Item) (σ : State)
    (id : resource.Key) (ns name : String) (rest : List String)
    (hsplit : strings.Split id.FullName '/' = ns :: name :: rest) :
    (source.Get D st σ id).calls =
        (match st.read ns name with
         | .error _ => [.read ns name]
         | .ok u => [.read ns name, .toProto u]) ∧
    (source.Get D st σ id).result =
        (match st.read ns name with
         | .error err => .returned (resource.Entry.zero Item) (some err)
         | .ok u =>
           match st.ToProto u with
           | .error err => .returned (resource.Entry.zero Item) (some err)
           | .ok item =>
             .returned
               { ID := { Key := { Kind := D.ProducerServiceKind, FullName := id.FullName },
                         Version := st.GetResourceVersion u },
                 Item := some item } none) := by
  unfold source.Get
  simp only [hsplit, List.getElem?_cons_zero, List.getElem?_cons_succ]
  cases st.read ns name with
  | error err => exact ⟨rfl, rfl⟩
  | ok u =>
    dsimp only
    cases st.ToProto u with
    | error err => exact ⟨rfl, rfl⟩
    | ok item => exact ⟨rfl, rfl⟩

/-- C4: when the point read for the first two segments of the key's name
succeeds with raw object `u` and the conversion of `u` succeeds with `item`,
`Get` returns no error and the entry with version `u.GetResourceVersion()`,
key `{ProducerServiceKind, id.FullName}` and item `item`; it leaves the state
as it was, and the result is the same in every state of the adapter and of
its channels. -/
theorem Get_success_entry {U Item : Type} (D : Decls) (st : Store U Item) (σ : State)
    (id : resource.Key) (ns name : String) (rest : List String) (u : U) (item : Item)
    (hsplit : strings.Split id.FullName '/' = ns :: name :: rest)
    (hread : st.read ns name = .ok u) (hconv : st.ToProto u = .ok item) :
    (source.Get D st σ id).result =
      .returned { ID := { Key := { Kind := D.ProducerServiceKind, FullName := id.FullName },
                          Version := st.GetResourceVersion u },
                  Item := some item } none ∧
    (source.Get D st σ id).calls = [.read ns name, .toProto u] ∧
    (source.Get D st σ id).state = σ ∧
    ∀ σ₂ : State, (source.Get D st σ₂ id).result = (source.Get D st σ id).result := by
  have h := Get_of_parts D st σ id ns name rest hsplit
  simp only [hread, hconv] at h
  refine ⟨h.2, h.1, Get_state D st σ id, fun σ₂ => ?_⟩
  have h₂ := Get_of_parts D st σ₂ id ns name rest hsplit
  simp only [hread, hconv] at h₂
  rw [h.2, h₂.2]

/-- Witness for C4: reading `ns1/svc-a` from the sample store while the
channel holds an event. -/
theorem Get_success_entry_witness :
    strings.Split "ns1/svc-a" '/' = ["ns1", "svc-a"] ∧
    sampleStore.read "ns1" "svc-a" = .ok ("rv-ns1", "svc-a") ∧
    (source.Get sampleDecls sampleStore (source.Start State.init).state
        ⟨"anything", "ns1/svc-a"⟩).result =
      .returned ⟨⟨⟨"ProducerService", "ns1/svc-a"⟩, "rv-ns1"⟩, some "svc-a"⟩ none :=
  ⟨by decide, rfl,
    (Get_success_entry sampleDecls sampleStore (source.Start State.init).state
      ⟨"anything", "ns1/svc-a"⟩ "ns1" "svc-a" [] ("rv-ns1", "svc-a") "svc-a"
      (by decide) rfl rfl).1⟩

/-- C5: for a key whose name has exactly two segments, if the point read
fails `Get` returns that error with the zero entry and its only collaborator
call is the read (no conversion); if the read succeeds and the conversion
fails `Get` returns the conversion error with the zero entry; and whatever the
outcome `Get` leaves the state, hence every channel, as it was. -/
theorem Get_failure_returns_error {U Item : Type} (D : Decls) (st : Store U Item) (σ : State)
    (id : resource.Key) (ns name : String)
    (hsplit : strings.Split id.FullName '/' = [ns, name]) :
    (∀ err, st.read ns name = .error err →
      (source.Get D st σ id).result = .returned (resource.Entry.zero Item) (some err) ∧
      (source.Get D st σ id).calls = [.read ns name]) ∧
    (∀ u err, st.read ns name = .ok u → st.ToProto u = .error err →
      (source.Get D st σ id).result = .returned (resource.Entry.zero Item) (some err) ∧
      (source.Get D st σ id).calls = [.read ns name, .toProto u]) ∧
    (source.Get D st σ id).state = σ ∧
    (∀ r, ((source.Get D st σ id).state.heap.cells r) = σ.heap.cells r) := by
  have h := Get_of_parts D st σ id ns name [] hsplit
  refine ⟨?_, ?_, Get_state D st σ id, fun r => by rw [Get_state]⟩
  · intro err hread
    simp only [hread] at h
    exact ⟨h.2, h.1⟩
  · intro u err hread hconv
    simp only [hread, hconv] at h
    exact ⟨h.2, h.1⟩

/-- Witness for C5: a read that fails (`ns1/missing`) and a conversion that
fails (`ns1/bad`). -/
theorem Get_failure_returns_error_witness :
    strings.Split "ns1/missing" '/' = ["ns1", "missing"] ∧
    sampleStore.read "ns1" "missing" = .error "NotFound" ∧
    ((source.Get sampleDecls sampleStore (source.Start State.init).state
        ⟨"ProducerService", "ns1/missing"⟩).result =
      .returned (resource.Entry.zero String) (some "NotFound") ∧
    (source.Get sampleDecls sampleStore (source.Start State.init).state
        ⟨"ProducerService", "ns1/missing"⟩).calls = [.read "ns1" "missing"]) ∧
    strings.Split "ns1/bad" '/' = ["ns1", "bad"] ∧
    sampleStore.ToProto ("rv-ns1", "bad") = .error "ConversionFailed" ∧
    (source.Get sampleDecls sampleStore (source.Start State.init).state
        ⟨"ProducerService", "ns1/bad"⟩).result =
      .returned (resource.Entry.zero String) (some "ConversionFailed") :=
  ⟨by decide, rfl,
    (Get_failure_returns_error sampleDecls sampleStore (source.Start State.init).state
      ⟨"ProducerService", "ns1/missing"⟩ "ns1" "missing" (by decide)).1 "NotFound" rfl,
    by decide, rfl,
    ((Get_failure_returns_error sampleDecls sampleStore (source.Start State.init).state
      ⟨"ProducerService", "ns1/bad"⟩ "ns1" "bad" (by decide)).2.1 ("rv-ns1", "bad")
      "ConversionFailed" rfl rfl).1⟩

/-- C9: for a key whose name is `ns ++ "/" ++ name` with no `/` in `ns` or
in `name`, the split yields exactly the two segments `ns` and `name`, `Get`
does not panic on indexing, and its first collaborator call is the point read
with namespace `ns` and name `name`. -/
theorem Get_two_segments_reads_ns_name {U Item : Type} (D : Decls) (st : Store U Item)
    (σ : State) (id : resource.Key) (ns name : String)
    (hns : '/' ∉ ns.data) (hname : '/' ∉ name.data)
    (hid : id.FullName = ns ++ "/" ++ name) :
    strings.Split id.FullName '/' = [ns, name] ∧
    (source.Get D st σ id).result ≠ .panicked ∧
    (source.Get D st σ id).calls.head? = some (.read ns name) := by
  have hsplit : strings.Split id.FullName '/' = [ns, name] := by
    rw [hid]; exact strings.Split_two ns name hns hname
  have h := Get_of_parts D st σ id ns name [] hsplit
  refine ⟨hsplit, ?_, ?_⟩
  · rw [h.2]
    cases st.read ns name with
    | error err => simp
    | ok u => dsimp only; cases st.ToProto u <;> simp
  · rw [h.1]
    cases st.read ns name <;> rfl

/-- Witness for C9: the key `ns1/svc-a`. -/
theorem Get_two_segments_reads_ns_name_witness :
    '/' ∉ "ns1".data ∧ '/' ∉ "svc-a".data ∧
    (source.Get sampleDecls sampleStore State.init ⟨"ProducerService", "ns1/svc-a"⟩).result
      ≠ .panicked ∧
    (source.Get sampleDecls sampleStore State.init
      ⟨"ProducerService", "ns1/svc-a"⟩).calls.head? = some (.read "ns1" "svc-a") :=
  ⟨by decide, by decide,
    (Get_two_segments_reads_ns_name sampleDecls sampleStore State.init
      ⟨"ProducerService", "ns1/svc-a"⟩ "ns1" "svc-a" (by decide) (by decide) (by decide)).2⟩

/-- C10: a name with three or more segments is not detected. `Get` does not
panic, makes exactly the collaborator calls it makes for the name built from
the first two segments alone, returns the same error when that call returns
one, and when that call succeeds returns the same entry except that its key
carries the full original name. -/
theorem Get_ignores_extra_segments {U Item : Type} (D : Decls) (st : Store U Item)
    (σ : State) (id : resource.Key) (a b c : String) (rest : List String)
    (hsplit : strings.Split id.FullName '/' = a :: b :: c :: rest) :
    (source.Get D st σ id).result ≠ .panicked ∧
    (source.Get D st σ id).calls.head? = some (.read a b) ∧
    (source.Get D st σ id).calls =
      (source.Get D st σ { id with FullName := a ++ "/" ++ b }).calls ∧
    (∀ entry err,
      (source.Get D st σ { id with FullName := a ++ "/" ++ b }).result
          = .returned entry (some err) →
      (source.Get D st σ id).result = .returned entry (some err)) ∧
    (∀ entry,
      (source.Get D st σ { id with FullName := a ++ "/" ++ b }).result
          = .returned entry none →
      (source.Get D st σ id).result =
        .returned { entry with ID := { entry.ID with
          Key := { entry.ID.Key with FullName := id.FullName } } } none ∧
      id.FullName ≠ a ++ "/" ++ b) := by
  have ha : '/' ∉ a.data := strings.Split_mem_not_mem id.FullName a (by simp [hsplit])
  have hb : '/' ∉ b.data := strings.Split_mem_not_mem id.FullName b (by simp [hsplit])
  have h := Get_of_parts D st σ id a b (c :: rest) hsplit
  have h₂ := Get_of_parts D st σ { id with FullName := a ++ "/" ++ b } a b []
    (strings.Split_two a b ha hb)
  have hne : id.FullName ≠ a ++ "/" ++ b := by
    intro heq
    have := strings.Split_two a b ha hb
    rw [← heq, hsplit] at this
    simp at this
  rw [h.1, h.2, h₂.1, h₂.2]
  cases st.read a b with
  | error err => simp
  | ok u =>
    dsimp only
    cases st.ToProto u with
    | error err => simp
    | ok item => simp [hne]

/-- Witness for C10: the key `ns1/svc-a/extra` reads `ns1`, `svc-a` and
returns an entry named `ns1/svc-a/extra`. -/
theorem Get_ignores_extra_segments_witness :
    strings.Split "ns1/svc-a/extra" '/' = ["ns1", "svc-a", "extra"] ∧
    (source.Get sampleDecls sampleStore State.init
      ⟨"ProducerService", "ns1/svc-a/extra"⟩).calls.head? = some (.read "ns1" "svc-a") ∧
    (source.Get sampleDecls sampleStore State.init
      ⟨"ProducerService", "ns1/svc-a/extra"⟩).result =
      .returned ⟨⟨⟨"ProducerService", "ns1/svc-a/extra"⟩, "rv-ns1"⟩, some "svc-a"⟩ none :=
  ⟨by decide,
    (Get_ignores_extra_segments sampleDecls sampleStore State.init
      ⟨"ProducerService", "ns1/svc-a/extra"⟩ "ns1" "svc-a" "extra" [] (by decide)).2.1,
    ((Get_ignores_extra_segments sampleDecls sampleStore State.init
      ⟨"ProducerService", "ns1/svc-a/extra"⟩ "ns1" "svc-a" "extra" [] (by decide)).2.2.2.2
      ⟨⟨⟨"ProducerService", "ns1/svc-a"⟩, "rv-ns1"⟩, some "svc-a"⟩ (by decide)).1⟩

/-! ## Lemmas on the interleaved system -/

theorem Inv_started (D : Decls) (σ : State) (cs : List change.Info) :
    Sys.Inv D σ.heap.next (cs.map (source.processEvent D)) (Sys.started σ cs) where
  ch := rfl
  consumer := rfl
  running := rfl
  cap := by simp [Sys.started, Start_cell]
  len := by simp [Sys.started, Start_cell]
  prod := trivial
  flow := by simp [Sys.started, Start_cell, Producer.inflight]

theorem Inv_step_notify {D : Decls} {r : Nat} {all : List provider.Event} {y : Sys}
    (h : Sys.Inv D r all y) : Sys.Inv D r all (y.step D .notify) := by
  obtain ⟨σ, prod, queue, consumer, received⟩ := y
  obtain ⟨hch, hco, hrun, hcap, hlen, hprod, hflow⟩ := h
  simp only at hch hco hrun hcap hlen hprod hflow
  cases prod with
  | idle =>
    cases queue with
    | nil => exact ⟨hch, hco, hrun, hcap, hlen, hprod, hflow⟩
    | cons c cs =>
      simp only [Sys.step, hrun, if_true]
      refine ⟨hch, hco, hrun, hcap, hlen, trivial, ?_⟩
      simpa [Producer.inflight] using hflow
  | atSend e => exact ⟨hch, hco, hrun, hcap, hlen, hprod, hflow⟩
  | parked r' e => exact ⟨hch, hco, hrun, hcap, hlen, hprod, hflow⟩
  | stuck e => exact ⟨hch, hco, hrun, hcap, hlen, hprod, hflow⟩

theorem Inv_step_send {D : Decls} {r : Nat} {all : List provider.Event} {y : Sys}
    (h : Sys.Inv D r all y) : Sys.Inv D r all (y.step D .send) := by
  obtain ⟨σ, prod, queue, consumer, received⟩ := y
  obtain ⟨hch, hco, hrun, hcap, hlen, hprod, hflow⟩ := h
  simp only at hch hco hrun hcap hlen hprod hflow
  cases prod with
  | idle => exact ⟨hch, hco, hrun, hcap, hlen, hprod, hflow⟩
  | atSend e =>
    by_cases hroom : (σ.heap.cells r).buf.length < 1024
    · simp only [Sys.step, Heap.send, hch, hcap, hroom, if_true]
      refine ⟨hch, hco, hrun, ?_, ?_, trivial, ?_⟩
      · simp [setBuf_cells_self, hcap]
      · simp [setBuf_cells_self]; omega
      · simpa [setBuf_cells_self, Producer.inflight] using hflow
    · simp only [Sys.step, Heap.send, hch, hcap, hroom, if_false]
      refine ⟨hch, hco, hrun, hcap, hlen, ⟨rfl, ?_⟩, ?_⟩
      · simp only; omega
      · simpa [Producer.inflight] using hflow
  | parked r' e => exact ⟨hch, hco, hrun, hcap, hlen, hprod, hflow⟩
  | stuck e => exact ⟨hch, hco, hrun, hcap, hlen, hprod, hflow⟩

theorem Inv_step_recv {D : Decls} {r : Nat} {all : List provider.Event} {y : Sys}
    (h : Sys.Inv D r all y) : Sys.Inv D r all (y.step D .recv) := by
  obtain ⟨σ, prod, queue, consumer, received⟩ := y
  obtain ⟨hch, hco, hrun, hcap, hlen, hprod, hflow⟩ := h
  simp only at hch hco hrun hcap hlen hprod hflow
  subst hco
  cases hbuf : (σ.heap.cells r).buf with
  | nil =>
    simp only [Sys.step, hbuf]
    exact ⟨hch, rfl, hrun, hcap, hlen, hprod, hflow⟩
  | cons x xs =>
    rw [hbuf] at hlen hflow
    cases prod with
    | idle =>
      simp only [Sys.step, hbuf]
      refine ⟨hch, rfl, hrun, ?_, ?_, trivial, ?_⟩
      · simp [setBuf_cells_self, hcap]
      · simp only [setBuf_cells_self]; simp only [List.length_cons] at hlen; omega
      · simpa [setBuf_cells_self, Producer.inflight] using hflow
    | atSend e =>
      simp only [Sys.step, hbuf]
      refine ⟨hch, rfl, hrun, ?_, ?_, trivial, ?_⟩
      · simp [setBuf_cells_self, hcap]
      · simp only [setBuf_cells_self]; simp only [List.length_cons] at hlen; omega
      · simpa [setBuf_cells_self, Producer.inflight] using hflow
    | parked r' e =>
      obtain ⟨hr, _⟩ := hprod
      subst hr
      simp only [Sys.step, hbuf, if_true]
      refine ⟨hch, rfl, hrun, ?_, ?_, trivial, ?_⟩
      · simp [setBuf_cells_self, hcap]
      · simp only [setBuf_cells_self, List.length_append, List.length_singleton]
        simp only [List.length_cons] at hlen; omega
      · simpa [setBuf_cells_self, Producer.inflight] using hflow
    | stuck e => exact absurd hprod id

theorem Inv_step {D : Decls} {r : Nat} {all : List provider.Event} {y : Sys}
    (h : Sys.Inv D r all y) (a : Action) (ha : a.isDelivery = true) :
    Sys.Inv D r all (y.step D a) := by
  cases a with
  | start => simp [Action.isDelivery] at ha
  | stop => simp [Action.isDelivery] at ha
  | notify => exact Inv_step_notify h
  | send => exact Inv_step_send h
  | recv => exact Inv_step_recv h

theorem Inv_run {D : Decls} {r : Nat} {all : List provider.Event} :
    ∀ (tr : List Action) (y : Sys), Sys.Inv D r all y →
      (∀ a ∈ tr, a.isDelivery = true) → Sys.Inv D r all (y.run D tr) := by
  intro tr
  induction tr with
  | nil => intro y h _; exact h
  | cons a tr ih =>
    intro y h htr
    exact ih (y.step D a) (Inv_step h a (htr a (List.mem_cons_self _ _)))
      (fun b hb => htr b (List.mem_cons_of_mem _ hb))

theorem pick_none {D : Decls} {r : Nat} {all : List provider.Event} {y : Sys}
    (h : Sys.Inv D r all y) (hp : y.pick = none) :
    y.prod = .idle ∧ y.queue = [] ∧ (y.σ.heap.cells r).buf = [] := by
  obtain ⟨σ, prod, queue, consumer, received⟩ := y
  obtain ⟨hch, hco, hrun, hcap, hlen, hprod, hflow⟩ := h
  simp only at hch hco hrun hcap hlen hprod hflow
  subst hco
  cases prod with
  | idle =>
    cases queue with
    | nil =>
      cases hbuf : (σ.heap.cells r).buf with
      | nil => exact ⟨rfl, rfl, rfl⟩
      | cons x xs => simp [Sys.pick, hbuf] at hp
    | cons c cs => simp [Sys.pick, hrun] at hp
  | atSend e => simp [Sys.pick] at hp
  | parked r' e =>
    cases hbuf : (σ.heap.cells r).buf with
    | nil => rw [hbuf] at hprod; simp at hprod
    | cons x xs => simp [Sys.pick, hbuf] at hp
  | stuck e => exact absurd hprod id

theorem pick_some {D : Decls} {r : Nat} {all : List provider.Event} {y : Sys}
    (h : Sys.Inv D r all y) {a : Action} (hp : y.pick = some a) :
    a.isDelivery = true ∧ (y.step D a).weight + 1 = y.weight := by
  obtain ⟨σ, prod, queue, consumer, received⟩ := y
  obtain ⟨hch, hco, hrun, hcap, hlen, hprod, hflow⟩ := h
  simp only at hch hco hrun hcap hlen hprod hflow
  subst hco
  cases prod with
  | idle =>
    cases queue with
    | nil =>
      cases hbuf : (σ.heap.cells r).buf with
      | nil => simp [Sys.pick, hbuf] at hp
      | cons x xs =>
        simp [Sys.pick, hbuf] at hp
        subst hp
        refine ⟨rfl, ?_⟩
        simp [Sys.step, Sys.weight, State.chanBuf, hch, hbuf, setBuf_cells_self]
    | cons c cs =>
      simp [Sys.pick, hrun] at hp
      subst hp
      refine ⟨rfl, ?_⟩
      simp [Sys.step, Sys.weight, State.chanBuf, hch, hrun]
      omega
  | atSend e =>
    simp [Sys.pick] at hp
    subst hp
    refine ⟨rfl, ?_⟩
    by_cases hroom : (σ.heap.cells r).buf.length < 1024
    · simp [Sys.step, Heap.send, Sys.weight, State.chanBuf, hch, hcap, hroom, setBuf_cells_self]
      omega
    · simp [Sys.step, Heap.send, Sys.weight, State.chanBuf, hch, hcap, hroom]
      omega
  | parked r' e =>
    obtain ⟨hr, hfull⟩ := hprod
    subst hr
    cases hbuf : (σ.heap.cells r').buf with
    | nil => rw [hbuf] at hfull; simp at hfull
    | cons x xs =>
      simp [Sys.pick, hbuf] at hp
      subst hp
      refine ⟨rfl, ?_⟩
      simp [Sys.step, Sys.weight, State.chanBuf, hch, hbuf, setBuf_cells_self]
      omega
  | stuck e => exact absurd hprod id

theorem drain_settles {D : Decls} {r : Nat} {all : List provider.Event} :
    ∀ (n : Nat) (y : Sys), Sys.Inv D r all y → y.weight ≤ n →
      Sys.Inv D r all (Sys.drain D n y) ∧ (Sys.drain D n y).pick = none := by
  intro n
  induction n with
  | zero =>
    intro y h hw
    cases hp : y.pick with
    | none => exact ⟨h, by simpa [Sys.drain] using hp⟩
    | some a => have := (pick_some h hp).2; omega
  | succ n ih =>
    intro y h hw
    cases hp : y.pick with
    | none =>
      have hd : Sys.drain D (n + 1) y = y := by simp only [Sys.drain, hp]
      rw [hd]; exact ⟨h, hp⟩
    | some a =>
      simp only [Sys.drain, hp]
      have hs := pick_some h hp
      exact ih (y.step D a) (Inv_step h a hs.1) (by omega)

theorem weight_started (σ : State) (cs : List change.Info) :
    (Sys.started σ cs).weight = 3 * cs.length := by
  simp [Sys.weight, Sys.started, State.chanBuf, Start_state_ch, Start_cell]

theorem drain_delivers (D : Decls) (σ : State) (cs : List change.Info) (n : Nat)
    (hn : 3 * cs.length ≤ n) :
    (Sys.drain D n (Sys.started σ cs)).received = cs.map (source.processEvent D) ∧
    ((Sys.drain D n (Sys.started σ cs)).σ.heap.cells σ.heap.next).buf = [] ∧
    (Sys.drain D n (Sys.started σ cs)).queue = [] ∧
    (Sys.drain D n (Sys.started σ cs)).prod = .idle := by
  obtain ⟨hinv, hpick⟩ := drain_settles n (Sys.started σ cs) (Inv_started D σ cs)
    (by rw [weight_started]; exact hn)
  obtain ⟨h1, h2, h3⟩ := pick_none hinv hpick
  have hflow := hinv.flow
  rw [h1, h2, h3] at hflow
  refine ⟨?_, h3, h2, h1⟩
  simpa [Producer.inflight] using hflow

/-- On a full channel the send of the active call parks it, leaving buffer
and received events as they were; while it is parked no further notification
is processed; the next receive takes the oldest event and puts the parked
event at the end of the buffer, which ends the call. -/
theorem send_full_blocks {D : Decls} {r : Nat} {all : List provider.Event} {y : Sys}
    (h : Sys.Inv D r all y) (e : provider.Event) (hp : y.prod = .atSend e)
    (hfull : (y.σ.heap.cells r).buf.length = 1024) :
    (y.step D .send).prod = .parked r e ∧
    ((y.step D .send).σ.heap.cells r).buf = (y.σ.heap.cells r).buf ∧
    (y.step D .send).received = y.received ∧
    (y.step D .send).queue = y.queue ∧
    ((y.step D .send).step D .notify).prod = .parked r e ∧
    ((y.step D .send).step D .notify).queue = y.queue ∧
    ((y.step D .send).step D .recv).prod = .idle ∧
    (((y.step D .send).step D .recv).σ.heap.cells r).buf = (y.σ.heap.cells r).buf.tail ++ [e] ∧
    ((y.step D .send).step D .recv).received = y.received ++ (y.σ.heap.cells r).buf.head?.toList := by
  obtain ⟨σ, prod, queue, consumer, received⟩ := y
  obtain ⟨hch, hco, hrun, hcap, hlen, hprod, hflow⟩ := h
  simp only at hch hco hrun hcap hlen hprod hflow hp hfull
  subst hco hp
  have hs : Sys.step D ⟨σ, .atSend e, queue, some r, received⟩ .send =
      ⟨σ, .parked r e, queue, some r, received⟩ := by
    simp [Sys.step, Heap.send, hch, hcap, hfull]
  rw [hs]
  cases hbuf : (σ.heap.cells r).buf with
  | nil => rw [hbuf] at hfull; simp at hfull
  | cons x xs => simp [Sys.step, hbuf, setBuf_cells_self]

theorem drain_add (D : Decls) : ∀ (a b : Nat) (y : Sys),
    Sys.drain D (a + b) y = Sys.drain D b (Sys.drain D a y) := by
  intro a
  induction a with
  | zero => intro b y; simp [Sys.drain]
  | succ a ih =>
    intro b y
    rw [Nat.add_right_comm]
    cases hp : y.pick with
    | none =>
      have h1 : Sys.drain D (a + b + 1) y = y := by simp only [Sys.drain, hp]
      have h2 : Sys.drain D (a + 1) y = y := by simp only [Sys.drain, hp]
      rw [h1, h2]
      cases b with
      | zero => rfl
      | succ b => simp only [Sys.drain, hp]
    | some act =>
      simp only [Sys.drain, hp]
      exact ih b _

theorem drain_two_room {D : Decls} {r : Nat} {all : List provider.Event} {y : Sys}
    (h : Sys.Inv D r all y) (c : change.Info) (q : List change.Info)
    (hidle : y.prod = .idle) (hq : y.queue = c :: q)
    (hroom : (y.σ.heap.cells r).buf.length < 1024) :
    (Sys.drain D 2 y).prod = .idle ∧
    ((Sys.drain D 2 y).σ.heap.cells r).buf =
      (y.σ.heap.cells r).buf ++ [source.processEvent D c] ∧
    (Sys.drain D 2 y).queue = q ∧ (Sys.drain D 2 y).received = y.received ∧
    Sys.Inv D r all (Sys.drain D 2 y) := by
  have h1 : y.pick = some .notify := by
    obtain ⟨σ, prod, queue, consumer, received⟩ := y
    have hrun : σ.s.scAccessor.running = true := h.running
    simp only at hidle hq
    subst hidle hq
    simp [Sys.pick, hrun]
  have e1 : y.step D .notify =
      { y with prod := .atSend (source.processEvent D c), queue := q } := by
    obtain ⟨σ, prod, queue, consumer, received⟩ := y
    have hrun : σ.s.scAccessor.running = true := h.running
    simp only at hidle hq
    subst hidle hq
    simp [Sys.step, hrun]
  have h2 : (y.step D .notify).pick = some .send := by rw [e1]; rfl
  have hd : Sys.drain D 2 y = (y.step D .notify).step D .send := by
    simp only [Sys.drain, h1, h2]
  have hinv : Sys.Inv D r all (Sys.drain D 2 y) := by
    rw [hd]; exact Inv_step_send (Inv_step_notify h)
  refine ⟨?_, ?_, ?_, ?_, hinv⟩ <;> rw [hd, e1] <;>
    simp [Sys.step, Heap.send, h.ch, h.cap, hroom, setBuf_cells_self]

theorem drain_two_full {D : Decls} {r : Nat} {all : List provider.Event} {y : Sys}
    (h : Sys.Inv D r all y) (c : change.Info) (q : List change.Info)
    (hidle : y.prod = .idle) (hq : y.queue = c :: q)
    (hfull : (y.σ.heap.cells r).buf.length = 1024) :
    (Sys.drain D 2 y).prod = .parked r (source.processEvent D c) ∧
    ((Sys.drain D 2 y).σ.heap.cells r).buf = (y.σ.heap.cells r).buf ∧
    (Sys.drain D 2 y).queue = q ∧ (Sys.drain D 2 y).received = y.received := by
  have h1 : y.pick = some .notify := by
    obtain ⟨σ, prod, queue, consumer, received⟩ := y
    have hrun : σ.s.scAccessor.running = true := h.running
    simp only at hidle hq
    subst hidle hq
    simp [Sys.pick, hrun]
  have e1 : y.step D .notify =
      { y with prod := .atSend (source.processEvent D c), queue := q } := by
    obtain ⟨σ, prod, queue, consumer, received⟩ := y
    have hrun : σ.s.scAccessor.running = true := h.running
    simp only at hidle hq
    subst hidle hq
    simp [Sys.step, hrun]
  have h2 : (y.step D .notify).pick = some .send := by rw [e1]; rfl
  have hd : Sys.drain D 2 y = (y.step D .notify).step D .send := by
    simp only [Sys.drain, h1, h2]
  refine ⟨?_, ?_, ?_, ?_⟩ <;> rw [hd, e1] <;>
    simp [Sys.step, Heap.send, h.ch, h.cap, hfull]

theorem drain_fill {D : Decls} {r : Nat} {all : List provider.Event} :
    ∀ (k : Nat) (y : Sys), Sys.Inv D r all y → y.prod = .idle →
      (y.σ.heap.cells r).buf.length + k ≤ 1024 → k ≤ y.queue.length →
      (Sys.drain D (2 * k) y).prod = .idle ∧
      ((Sys.drain D (2 * k) y).σ.heap.cells r).buf =
        (y.σ.heap.cells r).buf ++ (y.queue.take k).map (source.processEvent D) ∧
      (Sys.drain D (2 * k) y).queue = y.queue.drop k ∧
      (Sys.drain D (2 * k) y).received = y.received ∧
      Sys.Inv D r all (Sys.drain D (2 * k) y) := by
  intro k
  induction k with
  | zero => intro y h hidle _ _; simp [Sys.drain, hidle, h]
  | succ k ih =>
    intro y h hidle hlen hk
    cases hq : y.queue with
    | nil => rw [hq] at hk; simp at hk
    | cons c q =>
      obtain ⟨a1, a2, a3, a4, a5⟩ := drain_two_room h c q hidle hq (by omega)
      have hstep : Sys.drain D (2 * (k + 1)) y = Sys.drain D (2 * k) (Sys.drain D 2 y) := by
        rw [show 2 * (k + 1) = 2 + 2 * k by ring]; exact drain_add D 2 (2 * k) y
      obtain ⟨b1, b2, b3, b4, b5⟩ := ih (Sys.drain D 2 y) a5 a1
        (by rw [a2]; simp only [List.length_append, List.length_singleton]; omega)
        (by rw [a3]; rw [hq] at hk; simpa using hk)
      rw [hstep]
      refine ⟨b1, ?_, ?_, ?_, b5⟩
      · rw [b2, a2, a3]; simp
      · rw [b3, a3]; simp
      · rw [b4, a4]

/-- With more than 1024 notifications and no receive, the producer fills the
channel with the first 1024 events and is parked on the next one. -/
theorem drain_parks (D : Decls) (σ : State) (cs : List change.Info) (c : change.Info)
    (rest : List change.Info) (hcs : cs.drop 1024 = c :: rest) :
    (Sys.drain D 2050 (Sys.started σ cs)).prod = .parked σ.heap.next (source.processEvent D c) ∧
    ((Sys.drain D 2050 (Sys.started σ cs)).σ.heap.cells σ.heap.next).buf =
      (cs.take 1024).map (source.processEvent D) ∧
    (Sys.drain D 2050 (Sys.started σ cs)).queue = rest ∧
    (Sys.drain D 2050 (Sys.started σ cs)).received = [] := by
  have hlen : 1024 ≤ cs.length := by
    by_contra hlt
    rw [List.drop_eq_nil_of_le (by omega)] at hcs
    cases hcs
  have h0 := Inv_started D σ cs
  have hbuf0 : ((Sys.started σ cs).σ.heap.cells σ.heap.next).buf = [] := by
    simp [Sys.started, Start_cell]
  obtain ⟨b1, b2, b3, b4, b5⟩ := drain_fill 1024 (Sys.started σ cs) h0 rfl
    (by rw [hbuf0]; simp) (by simpa [Sys.started] using hlen)
  have hq : (Sys.drain D (2 * 1024) (Sys.started σ cs)).queue = c :: rest := by
    rw [b3]; simpa [Sys.started] using hcs
  have hfull : ((Sys.drain D (2 * 1024) (Sys.started σ cs)).σ.heap.cells σ.heap.next).buf.length
      = 1024 := by
    rw [b2, hbuf0]; simp [Sys.started, hlen]
  obtain ⟨c1, c2, c3, c4⟩ := drain_two_full b5 c rest b1 hq hfull
  have hstep : Sys.drain D 2050 (Sys.started σ cs) =
      Sys.drain D 2 (Sys.drain D (2 * 1024) (Sys.started σ cs)) :=
    drain_add D (2 * 1024) 2 (Sys.started σ cs)
  rw [hstep]
  refine ⟨c1, ?_, c3, ?_⟩
  · rw [c2, b2, hbuf0]; simp [Sys.started]
  · rw [c4, b4]; rfl

/-- The two moves `notify` and `send` of the subscription make up one call of
`process` on the next notification. -/
theorem notify_send_eq_process (D : Decls) (y : Sys) (c : change.Info) (cs : List change.Info)
    (hidle : y.prod = .idle) (hq : y.queue = c :: cs)
    (hrun : y.σ.s.scAccessor.running = true) :
    (y.step D .notify).step D .send =
      (match source.process D y.σ c with
       | .done σ' => { y with σ := σ', queue := cs }
       | .parked r e => { y with prod := .parked r e, queue := cs }
       | .stuck e => { y with prod := .stuck e, queue := cs }) := by
  obtain ⟨σ, prod, queue, consumer, received⟩ := y
  simp only at hidle hq hrun
  subst hidle hq
  simp only [Sys.step, hrun, if_true, source.process]
  cases σ.heap.send σ.s.ch (source.processEvent D c) <;> rfl

/-! ## Claims on backpressure and on `Stop` -/

/-- C7: in every system reached from `Start` by deliveries (`notify`, `send`)
and receives, the channel `Start` returned holds at most 1024 events, and
what was received, what is buffered, what the active call of `process` holds
and what is still undelivered are, in this order, the events of all
notifications (nothing dropped, duplicated or reordered). If the active call
reaches its send with 1024 events buffered it is parked with buffer and
received events unchanged, no further notification is processed while it is
parked, and the next receive moves the parked event to the end of the buffer
and ends the call. From every such system, letting the producer run whenever
it can and the consumer receive otherwise ends, after at most `weight` moves,
with every event received in arrival order and nothing left. From `Start`
itself, with more than 1024 notifications, the first 2050 moves of that
schedule are the producer's alone and end with the first 1024 events
buffered, the next one parked and nothing received; and `3 * cs.length` moves
are enough to have all events received in order, for 2000 notifications as
for any other number. -/
theorem backpressure_bounded_and_lossless (D : Decls) (σ : State) (cs : List change.Info)
    (tr : List Action) (htr : ∀ a ∈ tr, a.isDelivery = true) :
    (((Sys.started σ cs).run D tr).σ.heap.cells σ.heap.next).buf.length ≤ 1024 ∧
    ((Sys.started σ cs).run D tr).σ.s.ch = some σ.heap.next ∧
    ((Sys.started σ cs).run D tr).consumer = some σ.heap.next ∧
    ((Sys.started σ cs).run D tr).received ++
        (((Sys.started σ cs).run D tr).σ.heap.cells σ.heap.next).buf ++
        ((Sys.started σ cs).run D tr).prod.inflight ++
        ((Sys.started σ cs).run D tr).queue.map (source.processEvent D)
      = cs.map (source.processEvent D) ∧
    (∀ e, ((Sys.started σ cs).run D tr).prod = .atSend e →
      (((Sys.started σ cs).run D tr).σ.heap.cells σ.heap.next).buf.length = 1024 →
      (((Sys.started σ cs).run D tr).step D .send).prod = .parked σ.heap.next e ∧
      ((((Sys.started σ cs).run D tr).step D .send).σ.heap.cells σ.heap.next).buf =
        (((Sys.started σ cs).run D tr).σ.heap.cells σ.heap.next).buf ∧
      (((Sys.started σ cs).run D tr).step D .send).received =
        ((Sys.started σ cs).run D tr).received ∧
      ((((Sys.started σ cs).run D tr).step D .send).step D .notify).prod
        = .parked σ.heap.next e ∧
      ((((Sys.started σ cs).run D tr).step D .send).step D .notify).queue =
        ((Sys.started σ cs).run D tr).queue ∧
      ((((Sys.started σ cs).run D tr).step D .send).step D .recv).prod = .idle ∧
      (((((Sys.started σ cs).run D tr).step D .send).step D .recv).σ.heap.cells
          σ.heap.next).buf =
        (((Sys.started σ cs).run D tr).σ.heap.cells σ.heap.next).buf.tail ++ [e] ∧
      ((((Sys.started σ cs).run D tr).step D .send).step D .recv).received =
        ((Sys.started σ cs).run D tr).received ++
          (((Sys.started σ cs).run D tr).σ.heap.cells σ.heap.next).buf.head?.toList) ∧
    (∀ n, ((Sys.started σ cs).run D tr).weight ≤ n →
      (Sys.drain D n ((Sys.started σ cs).run D tr)).received = cs.map (source.processEvent D) ∧
      ((Sys.drain D n ((Sys.started σ cs).run D tr)).σ.heap.cells σ.heap.next).buf = [] ∧
      (Sys.drain D n ((Sys.started σ cs).run D tr)).queue = [] ∧
      (Sys.drain D n ((Sys.started σ cs).run D tr)).prod = .idle) ∧
    (∀ c rest, cs.drop 1024 = c :: rest →
      (Sys.drain D 2050 (Sys.started σ cs)).prod
        = .parked σ.heap.next (source.processEvent D c) ∧
      ((Sys.drain D 2050 (Sys.started σ cs)).σ.heap.cells σ.heap.next).buf =
        (cs.take 1024).map (source.processEvent D) ∧
      (Sys.drain D 2050 (Sys.started σ cs)).queue = rest ∧
      (Sys.drain D 2050 (Sys.started σ cs)).received = []) ∧
    (∀ n, 3 * cs.length ≤ n →
      (Sys.drain D n (Sys.started σ cs)).received = cs.map (source.processEvent D) ∧
      ((Sys.drain D n (Sys.started σ cs)).σ.heap.cells σ.heap.next).buf = [] ∧
      (Sys.drain D n (Sys.started σ cs)).queue = [] ∧
      (Sys.drain D n (Sys.started σ cs)).prod = .idle) := by
  have hinv := Inv_run tr (Sys.started σ cs) (Inv_started D σ cs) htr
  refine ⟨hinv.len, hinv.ch, hinv.consumer, hinv.flow, ?_, ?_,
    fun c rest hcs => drain_parks D σ cs c rest hcs, ?_⟩
  · intro e hp hfull
    obtain ⟨h1, h2, h3, _, h5, h6, h7, h8, h9⟩ := send_full_blocks hinv e hp hfull
    exact ⟨h1, h2, h3, h5, h6, h7, h8, h9⟩
  · intro n hn
    obtain ⟨hinv', hpick⟩ := drain_settles n _ hinv hn
    obtain ⟨h1, h2, h3⟩ := pick_none hinv' hpick
    have hflow := hinv'.flow
    rw [h1, h2, h3] at hflow
    refine ⟨?_, h3, h2, h1⟩
    simpa [Producer.inflight] using hflow
  · intro n hn
    exact drain_delivers D σ cs n hn

/-- Witness for C7: 2000 Add notifications against a freshly started adapter;
after one delivery and one receive the bound holds, the producer alone ends
parked with 975 notifications undelivered, and 6000 scheduled moves deliver
all 2000 events in order. -/
theorem backpressure_bounded_and_lossless_witness :
    (∀ a ∈ [Action.notify, Action.send, Action.recv], a.isDelivery = true) ∧
    (((Sys.started State.init (List.replicate 2000 ⟨0, "ns1/svc-a", "v1"⟩)).run sampleDecls
        [.notify, .send, .recv]).σ.heap.cells 0).buf.length ≤ 1024 ∧
    (Sys.drain sampleDecls 2050
        (Sys.started State.init (List.replicate 2000 ⟨0, "ns1/svc-a", "v1"⟩))).prod =
      .parked 0 ⟨⟨⟨"ProducerService", "ns1/svc-a"⟩, "v1"⟩, 1⟩ ∧
    (Sys.drain sampleDecls 2050
        (Sys.started State.init (List.replicate 2000 ⟨0, "ns1/svc-a", "v1"⟩))).queue =
      List.replicate 975 ⟨0, "ns1/svc-a", "v1"⟩ ∧
    (Sys.drain sampleDecls 6000
        (Sys.started State.init (List.replicate 2000 ⟨0, "ns1/svc-a", "v1"⟩))).received =
      (List.replicate 2000 (⟨0, "ns1/svc-a", "v1"⟩ : change.Info)).map
        (source.processEvent sampleDecls) :=
  ⟨by decide,
    (backpressure_bounded_and_lossless sampleDecls State.init
      (List.replicate 2000 ⟨0, "ns1/svc-a", "v1"⟩) [.notify, .send, .recv] (by decide)).1,
    ((backpressure_bounded_and_lossless sampleDecls State.init
      (List.replicate 2000 ⟨0, "ns1/svc-a", "v1"⟩) [.notify, .send, .recv]
      (by decide)).2.2.2.2.2.2.1 ⟨0, "ns1/svc-a", "v1"⟩ (List.replicate 975 ⟨0, "ns1/svc-a", "v1"⟩)
      (by rw [List.drop_replicate]; rfl)).1,
    ((backpressure_bounded_and_lossless sampleDecls State.init
      (List.replicate 2000 ⟨0, "ns1/svc-a", "v1"⟩) [.notify, .send, .recv]
      (by decide)).2.2.2.2.2.2.1 ⟨0, "ns1/svc-a", "v1"⟩ (List.replicate 975 ⟨0, "ns1/svc-a", "v1"⟩)
      (by rw [List.drop_replicate]; rfl)).2.2.1,
    ((backpressure_bounded_and_lossless sampleDecls State.init
      (List.replicate 2000 ⟨0, "ns1/svc-a", "v1"⟩) [.notify, .send, .recv]
      (by decide)).2.2.2.2.2.2.2 6000 (by simp only [List.length_replicate]; decide)).1⟩

/-- C8 (the code departs from the claim): if `Stop` runs between the moment
a call of `process` has built its event and the moment it executes its send,
the send is executed while the adapter's channel reference is nil. After
`Start`, the subscription calling `process`, and `Stop`, the channel reference
is nil and the call is still about to send; its next move is a send on the nil
channel, on which it blocks for good while the channel the consumer holds
stays empty. -/
theorem stop_during_delivery_sends_on_nil (D : Decls) (σ : State) (c : change.Info)
    (cs : List change.Info) :
    ((Sys.fresh σ (c :: cs)).run D [.start, .notify, .stop]).σ.s.ch = none ∧
    ((Sys.fresh σ (c :: cs)).run D [.start, .notify, .stop]).prod
      = .atSend (source.processEvent D c) ∧
    ((Sys.fresh σ (c :: cs)).run D [.start, .notify, .stop, .send]).prod
      = .stuck (source.processEvent D c) ∧
    ((Sys.fresh σ (c :: cs)).run D [.start, .notify, .stop, .send]).consumer
      = some σ.heap.next ∧
    (((Sys.fresh σ (c :: cs)).run D [.start, .notify, .stop, .send]).σ.heap.cells
      σ.heap.next).buf = [] ∧
    source.process D (source.Stop (source.Start σ).state) c = .stuck (source.processEvent D c) := by
  refine ⟨rfl, rfl, rfl, rfl, ?_, rfl⟩
  simp [Sys.run, Sys.fresh, Sys.step, source.Start, source.Stop, Heap.make, Heap.send,
    Accessor.Start]

end Galley
